import Mathlib

/-!
Verification of the tinydb core: query predicate algebra with structural
hashing (`queries.py`), the table layer with its query-result cache
(`table.py`), the LRU cache (`utils.py`), and the write-buffering storage
middleware (`middlewares.py`).

Python values stored in documents are modelled by the inductive type `Value`
(`None`, `int`, `str`, `list`, `dict`); dictionaries are association lists in
insertion order, as Python dicts are.  Machine-level hashing is not modelled:
two Python objects are "hash equal" for the query cache exactly when their
hash tuples compare equal with `==`, so hash tuples are modelled as the
inductive type `HashVal` together with the equality `hvalEq` that mirrors
Python tuple/frozenset comparison.

Several bodies in `table.py` are missing from the source (their bodies are
`pass`), as is `QueryInstance.is_cacheable` in `queries.py` (it is called but
never defined).  Those definitions are modelled from the spec and are marked
`Modelled from the spec:` in their doc comments.  Everything else is a direct
translation of the Python source.
-/

/-- A Python value as storable in a tinydb document: `None`, `int`, `str`,
`list` and `dict` (association list in insertion order). -/
inductive Value where
  | null
  | int (n : Int)
  | str (s : String)
  | list (xs : List Value)
  | dict (fields : List (String × Value))
deriving Repr

/-- Code-point comparison of strings, as Python compares `str` values. -/
def charListLt : List Char → List Char → Bool
  | [], [] => false
  | [], _ :: _ => true
  | _ :: _, [] => false
  | c :: cs, d :: ds => c.toNat < d.toNat || (c.toNat == d.toNat && charListLt cs ds)

/-- `a < b` on strings by code points (Python `str.__lt__`). -/
def strLtB (a b : String) : Bool := charListLt a.toList b.toList

mutual

/-- Python `==` on values.  Dict comparison is structural here; all documents
in this development keep their fields in one canonical order, on which
Python's order-insensitive dict equality coincides with the structural one. -/
def Value.beq : Value → Value → Bool
  | .null, .null => true
  | .int n, .int m => n == m
  | .str s, .str t => s == t
  | .list xs, .list ys => Value.beqList xs ys
  | .dict fs, .dict gs => Value.beqFields fs gs
  | _, _ => false

def Value.beqList : List Value → List Value → Bool
  | [], [] => true
  | v :: vs, w :: ws => Value.beq v w && Value.beqList vs ws
  | _, _ => false

def Value.beqFields : List (String × Value) → List (String × Value) → Bool
  | [], [] => true
  | (k, v) :: ps, (l, w) :: qs => k == l && Value.beq v w && Value.beqFields ps qs
  | _, _ => false

end

/-- Insert a field into a key-sorted field list (helper for `freeze`). -/
def insertSorted (p : String × Value) : List (String × Value) → List (String × Value)
  | [] => [p]
  | q :: qs => if strLtB p.1 q.1 then p :: q :: qs else q :: insertSorted p qs

/-- Sort a field list by key, modelling `tuple(sorted(self.items()))` in
`FrozenDict.__hash__` (utils.py): dict keys are unique, so sorting item pairs
sorts by key. -/
def sortFields : List (String × Value) → List (String × Value)
  | [] => []
  | p :: ps => insertSorted p (sortFields ps)

mutual

/-- `freeze` from utils.py: dicts become `FrozenDict`s whose hash material is
their key-sorted item list, lists become tuples (already immutable here),
everything else passes through.  The `set` branch of the source has no
counterpart because `Value` has no set constructor. -/
def freeze : Value → Value
  | .null => .null
  | .int n => .int n
  | .str s => .str s
  | .list xs => .list (freezeList xs)
  | .dict fs => .dict (sortFields (freezeFields fs))

def freezeList : List Value → List Value
  | [] => []
  | v :: vs => freeze v :: freezeList vs

def freezeFields : List (String × Value) → List (String × Value)
  | [] => []
  | (k, v) :: ps => (k, freeze v) :: freezeFields ps

end

/-- One element of a query path as it appears in hash tuples: a field name, or
a transform function added by `Query.map` (functions are identified by a
token, as Python hashes the function object). -/
inductive HKey where
  | field (s : String)
  | func (fid : Nat)
deriving DecidableEq, Repr

/-- The hash tuple of a query, mirroring the tuples built in queries.py:
`(None,)` for the bare `Query()`, `('path', path)` for path extension,
`(op, path, operand...)` for terminal operations, and the combinator tuples
`('and', frozenset(...))`, `('or', frozenset(...))`, `('not', hash)`. -/
inductive HashVal where
  | root
  | path (p : List HKey)
  | cmp (op : String) (p : List HKey) (rhs : Value)
  | existsH (p : List HKey)
  | regexH (op : String) (p : List HKey) (pattern : String) (flags : Nat)
  | testH (p : List HKey) (fid : Nat) (args : List Value)
  | anyAllQ (op : String) (p : List HKey) (ch : Option HashVal)
  | anyAllL (op : String) (p : List HKey) (items : List Value)
  | oneOfH (p : List HKey) (items : List Value)
  | noopH
  | andH (a b : HashVal)
  | orH (a b : HashVal)
  | notH (a : HashVal)

/-- Python `==` on hash tuples.  The `and`/`or` tuples hold a two-element
`frozenset`, so they compare as unordered pairs; `any`/`all` over a query
condition hold the `QueryInstance` itself, which compares by its own hash
tuple (`None` compares equal to `None`); all other components compare
structurally. -/
def hvalEq : HashVal → HashVal → Bool
  | .root, .root => true
  | .path p, .path q => p == q
  | .cmp o p r, .cmp o' p' r' => o == o' && p == p' && Value.beq r r'
  | .existsH p, .existsH p' => p == p'
  | .regexH o p pat fl, .regexH o' p' pat' fl' => o == o' && p == p' && pat == pat' && fl == fl'
  | .testH p fid args, .testH p' fid' args' => p == p' && fid == fid' && Value.beqList args args'
  | .anyAllQ o p (some x), .anyAllQ o' p' (some y) => o == o' && p == p' && hvalEq x y
  | .anyAllQ o p none, .anyAllQ o' p' none => o == o' && p == p'
  | .anyAllL o p its, .anyAllL o' p' its' => o == o' && p == p' && Value.beqList its its'
  | .oneOfH p its, .oneOfH p' its' => p == p' && Value.beqList its its'
  | .noopH, .noopH => true
  | .andH a b, .andH c d => (hvalEq a c && hvalEq b d) || (hvalEq a d && hvalEq b c)
  | .orH a b, .orH c d => (hvalEq a c && hvalEq b d) || (hvalEq a d && hvalEq b c)
  | .notH a, .notH c => hvalEq a c
  | _, _ => false

/-- Python `==` on optional hash tuples: `None == None` is true, and a tuple
never equals `None`.  This is the comparison `QueryInstance.__eq__` performs
on `self._hash == other._hash`. -/
def optHashEq : Option HashVal → Option HashVal → Bool
  | none, none => true
  | some x, some y => hvalEq x y
  | _, _ => false

/-- The errors Python raises during per-document query evaluation and that the
`runner` in `Query._generate_test` catches: `KeyError`, `TypeError`,
`ValueError`. -/
inductive PyErr where
  | keyError
  | typeError
  | valueError
deriving DecidableEq, Repr

/-- `QueryInstance` from queries.py: a test function over a document plus an
optional hash tuple (`_hash`); `hash = None` marks the instance as not
cacheable. -/
structure QueryInstance where
  test : Value → Bool
  optHash : Option HashVal

/-- `QueryInstance.__eq__`: two instances compare by their hash tuples
(`self._hash == other._hash`) whenever the other operand is a
`QueryInstance`. -/
def QueryInstance.pyEq (a b : QueryInstance) : Bool := optHashEq a.optHash b.optHash

/-- Modelled from the spec: `QueryInstance.is_cacheable` is called throughout
queries.py but its definition is absent from the source file; per the spec,
`hash = None` marks the instance not cacheable. -/
def QueryInstance.isCacheable (q : QueryInstance) : Bool := q.optHash.isSome

/-- `QueryInstance.__and__`: the conjunction tests both operands; the hash is
`('and', frozenset([h1, h2]))` when both operands are cacheable and `None`
otherwise. -/
def QueryInstance.and (a b : QueryInstance) : QueryInstance :=
  { test := fun v => a.test v && b.test v
    optHash :=
      if a.isCacheable && b.isCacheable then
        match a.optHash, b.optHash with
        | some x, some y => some (.andH x y)
        | _, _ => none
      else none }

/-- `QueryInstance.__or__`: the disjunction tests either operand; the hash is
`('or', frozenset([h1, h2]))` when both operands are cacheable and `None`
otherwise. -/
def QueryInstance.or (a b : QueryInstance) : QueryInstance :=
  { test := fun v => a.test v || b.test v
    optHash :=
      if a.isCacheable && b.isCacheable then
        match a.optHash, b.optHash with
        | some x, some y => some (.orH x y)
        | _, _ => none
      else none }

/-- `QueryInstance.__invert__`: hash `('not', hash)` when the operand is
cacheable, `None` otherwise. -/
def QueryInstance.not (a : QueryInstance) : QueryInstance :=
  { test := fun v => !a.test v
    optHash :=
      if a.isCacheable then
        match a.optHash with
        | some x => some (.notH x)
        | none => none
      else none }

/-- One step of a query path: a field-name lookup added by
`Query.__getattr__`/`__getitem__`, or a transform function added by
`Query.map` (`fid` is the identity token under which Python hashes the
function object, `f` its semantics; a failing transform raises one of the
caught error kinds). -/
inductive PStep where
  | field (s : String)
  | func (fid : Nat) (f : Value → Except PyErr Value)

/-- The hash material of a path step. -/
def PStep.hkey : PStep → HKey
  | .field s => .field s
  | .func fid _ => .func fid

/-- The `Query` builder state: the accumulated `_path`.  Chains built through
`Query()` attribute access are always cacheable (the root hash is the tuple
`(None,)`, not `None`), so the builder hash is `(None,)` for the empty path
and `('path', path)` otherwise, per `Query.__init__` and
`Query.__getattr__`. -/
structure Query where
  path : List PStep

/-- The hash tuple of a builder, as maintained in `_hash` by `Query.__init__`
(`(None,)`) and `Query.__getattr__` (`('path', query._path)`). -/
def Query.hashOf (q : Query) : Option HashVal :=
  match q.path with
  | [] => some .root
  | p => some (.path (p.map PStep.hkey))

/-- `Query.__getattr__` / `Query.__getitem__`: extend the path by a field
name. -/
def Query.attr (q : Query) (s : String) : Query := ⟨q.path ++ [.field s]⟩

/-- `Query.map`: extend the path by a transform function. -/
def Query.mapStep (q : Query) (fid : Nat) (f : Value → Except PyErr Value) : Query :=
  ⟨q.path ++ [.func fid f]⟩

/-- `where(key)`, shorthand for `Query()[key]`. -/
def whereKey (s : String) : Query := Query.attr ⟨[]⟩ s

/-- `value[part]` for a string key: dict lookup raising `KeyError` on a
missing field and `TypeError` when the value is not subscriptable by a string
(Python raises `TypeError` for `list[str]` and for `None[...]`; string
indexing by a string also raises `TypeError`). -/
def Value.getField (v : Value) (s : String) : Except PyErr Value :=
  match v with
  | .dict fs =>
    match fs.find? (fun p => p.1 == s) with
    | some p => .ok p.2
    | none => .error .keyError
  | _ => .error .typeError

/-- One step of path resolution in the `runner` of `Query._generate_test`:
`part(value)` for a callable part, `value[part]` for a field name. -/
def PStep.apply (step : PStep) (v : Value) : Except PyErr Value :=
  match step with
  | .field s => v.getField s
  | .func _ f => f v

/-- The path-resolution loop of the `runner`: apply each part in order,
propagating the first error. -/
def navigate : List PStep → Value → Except PyErr Value
  | [], v => .ok v
  | step :: rest, v =>
    match step.apply v with
    | .ok v1 => navigate rest v1
    | .error e => .error e

/-- Python `<` between stored values, the comparison domain used by this
development: defined for `int < int` and `str < str`; any other pairing
(including anything involving `None`) raises `TypeError`, as Python 3
does. -/
def Value.ltEx (a b : Value) : Except PyErr Bool :=
  match a, b with
  | .int n, .int m => .ok (decide (n < m))
  | .str s, .str t => .ok (strLtB s t)
  | _, _ => .error .typeError

/-- Python `<=` on the same comparison domain as `Value.ltEx`. -/
def Value.leEx (a b : Value) : Except PyErr Bool :=
  match a, b with
  | .int n, .int m => .ok (decide (n ≤ m))
  | .str s, .str t => .ok (strLtB s t || s == t)
  | _, _ => .error .typeError

/-- Python iteration over a value (`for item in value`): lists yield their
elements, strings their one-character substrings, dicts their keys; iterating
an `int` or `None` raises `TypeError`. -/
def Value.iterate (v : Value) : Except PyErr (List Value) :=
  match v with
  | .list xs => .ok xs
  | .str s => .ok (s.toList.map (fun c => .str (String.singleton c)))
  | .dict fs => .ok (fs.map (fun p => .str p.1))
  | _ => .error .typeError

/-- Python membership `item in container`: list membership by `==`, dict key
membership, substring containment for strings (`str in str`, where a
non-string item raises `TypeError`); `int`/`None` are not containers. -/
def Value.containsEx (container item : Value) : Except PyErr Bool :=
  match container, item with
  | .list xs, it => .ok (xs.any (fun x => Value.beq x it))
  | .dict fs, .str k => .ok (fs.any (fun p => p.1 == k))
  | .dict _, _ => .ok false
  | .str s, .str sub => .ok (decide (List.IsInfix sub.toList s.toList))
  | .str _, _ => .error .typeError
  | _, _ => .error .typeError

/-- `all(item in value for item in cond)` for a list-valued `cond`: Python's
`all` stops at the first falsy result, and the first raising membership test
propagates its error. -/
def containsAllEx (v : Value) : List Value → Except PyErr Bool
  | [] => .ok true
  | it :: rest =>
    match Value.containsEx v it with
    | .error e => .error e
    | .ok false => .ok false
    | .ok true => containsAllEx v rest

/-- A terminal operation of the query engine, one per terminal method of
`Query`.  Regex operations carry the pattern and flags (the hash material)
together with the match predicate the compiled pattern denotes; `test`
carries the function's identity token, extra arguments and semantics
(caller-supplied test functions are modelled as total deterministic
predicates, which the spec makes the caller's responsibility);
`any`/`all` take either a nested `QueryInstance` or a plain list. -/
inductive TermOp where
  | eqOp (rhs : Value)
  | neOp (rhs : Value)
  | ltOp (rhs : Value)
  | leOp (rhs : Value)
  | gtOp (rhs : Value)
  | geOp (rhs : Value)
  | existsOp
  | matchesOp (pattern : String) (flags : Nat) (m : String → Bool)
  | searchOp (pattern : String) (flags : Nat) (m : String → Bool)
  | testOp (fid : Nat) (args : List Value) (f : Value → List Value → Bool)
  | anyOpQ (c : QueryInstance)
  | anyOpL (items : List Value)
  | allOpQ (c : QueryInstance)
  | allOpL (items : List Value)
  | oneOfOp (items : List Value)
  | noopOp

/-- The per-operation test applied to the path-resolved value, translating
each terminal method's `test` lambda in queries.py.  Python `==`/`!=` and
`in`-on-a-list never raise; order comparisons, regex calls on non-strings and
iteration of non-iterables raise `TypeError`, which the surrounding `runner`
catches. -/
def termTest (op : TermOp) (v : Value) : Except PyErr Bool :=
  match op with
  | .eqOp rhs => .ok (Value.beq v rhs)
  | .neOp rhs => .ok (!Value.beq v rhs)
  | .ltOp rhs => Value.ltEx v rhs
  | .leOp rhs => Value.leEx v rhs
  | .gtOp rhs => Value.ltEx rhs v
  | .geOp rhs => Value.leEx rhs v
  | .existsOp => .ok true
  | .matchesOp _ _ m =>
    match v with
    | .str s => .ok (m s)
    | _ => .error .typeError
  | .searchOp _ _ m =>
    match v with
    | .str s => .ok (m s)
    | _ => .error .typeError
  | .testOp _ args f => .ok (f v args)
  | .anyOpQ c =>
    match v.iterate with
    | .ok xs => .ok (xs.any c.test)
    | .error e => .error e
  | .anyOpL items =>
    match v.iterate with
    | .ok xs => .ok (xs.any (fun it => items.any (fun x => Value.beq it x)))
    | .error e => .error e
  | .allOpQ c =>
    match v.iterate with
    | .ok xs => .ok (xs.all c.test)
    | .error e => .error e
  | .allOpL items => containsAllEx v items
  | .oneOfOp items => .ok (items.any (fun x => Value.beq v x))
  | .noopOp => .ok true

/-- The hash tuple each terminal method passes to `_generate_test`:
`(op-name, path, operand material)`, with `freeze` applied to the operand
exactly where the source applies it (`==`, `!=`, `any`, `all`, `one_of`). -/
def opHash (op : TermOp) (p : List HKey) : HashVal :=
  match op with
  | .eqOp rhs => .cmp "==" p (freeze rhs)
  | .neOp rhs => .cmp "!=" p (freeze rhs)
  | .ltOp rhs => .cmp "<" p rhs
  | .leOp rhs => .cmp "<=" p rhs
  | .gtOp rhs => .cmp ">" p rhs
  | .geOp rhs => .cmp ">=" p rhs
  | .existsOp => .existsH p
  | .matchesOp pat fl _ => .regexH "matches" p pat fl
  | .searchOp pat fl _ => .regexH "search" p pat fl
  | .testOp fid args _ => .testH p fid args
  | .anyOpQ c => .anyAllQ "any" p c.optHash
  | .anyOpL items => .anyAllL "any" p (freezeList items)
  | .allOpQ c => .anyAllQ "all" p c.optHash
  | .allOpL items => .anyAllL "all" p (freezeList items)
  | .oneOfOp items => .oneOfH p (freezeList items)
  | .noopOp => .noopH

/-- Whether the terminal operation may be applied to an empty path: only
`noop` passes `allow_empty_path=True` to `_generate_test`. -/
def TermOp.allowEmptyPath : TermOp → Bool
  | .noopOp => true
  | _ => false

/-- The `runner` closure of `Query._generate_test`: resolve the path, apply
the terminal test, and catch `KeyError`/`TypeError`/`ValueError` by returning
`False`.  Total by construction — this is the `try`/`except` block. -/
def runner (p : List PStep) (op : TermOp) (v : Value) : Bool :=
  match navigate p v with
  | .ok v1 =>
    match termTest op v1 with
    | .ok b => b
    | .error _ => false
  | .error _ => false

/-- `Query._generate_test` followed by the terminal method's hash
construction: raises `RuntimeError('Query has no path')` when the path is
empty and the operation is not `noop`; otherwise returns the
`QueryInstance` wrapping the `runner`. -/
def applyOp (q : Query) (op : TermOp) : Except String QueryInstance :=
  if q.path.isEmpty && !op.allowEmptyPath then
    .error "Query has no path"
  else
    .ok { test := runner q.path op, optHash := some (opHash op (q.path.map PStep.hkey)) }

/-- `LRUCache` from utils.py: a fixed-capacity map over an `OrderedDict`,
modelled as an association list whose head is the least-recently-used entry
and whose tail end is the most recent.  Key comparison is passed explicitly
(`eq`), as Python dict lookups go through the keys' `__eq__`.  The `Table`
always constructs the cache with an integer capacity. -/
structure LRUCache (K V : Type) where
  capacity : Nat
  cache : List (K × V)

/-- `len(self.cache)`. -/
def LRUCache.length (c : LRUCache K V) : Nat := c.cache.length

/-- `key in self.cache`. -/
def LRUCache.containsKey (eq : K → K → Bool) (c : LRUCache K V) (k : K) : Bool :=
  c.cache.any (fun p => eq p.1 k)

/-- `del self.cache[key]` (keys are unique in a dict, so at most one entry
matches). -/
def odDelete (eq : K → K → Bool) (l : List (K × V)) (k : K) : List (K × V) :=
  l.filter (fun p => !eq p.1 k)

/-- `LRUCache.__setitem__`: delete an existing key, else evict the
least-recently-used entry (`popitem(last=False)`, the front) when at
capacity; then append the pair at the most-recent end. -/
def LRUCache.set (eq : K → K → Bool) (c : LRUCache K V) (k : K) (v : V) : LRUCache K V :=
  if c.containsKey eq k then
    { c with cache := odDelete eq c.cache k ++ [(k, v)] }
  else if c.cache.length ≥ c.capacity then
    { c with cache := c.cache.drop 1 ++ [(k, v)] }
  else
    { c with cache := c.cache ++ [(k, v)] }

/-- `LRUCache.__getitem__`: `None` models the `KeyError` on a miss; on a hit
the entry is popped and re-appended at the most-recent end and its value
returned. -/
def LRUCache.getItem (eq : K → K → Bool) (c : LRUCache K V) (k : K) :
    Option (V × LRUCache K V) :=
  match c.cache.find? (fun p => eq p.1 k) with
  | none => none
  | some p => some (p.2, { c with cache := odDelete eq c.cache k ++ [(k, p.2)] })

/-- `LRUCache.get(key, default)`: default on a miss, else the repositioning
lookup. -/
def LRUCache.getD (eq : K → K → Bool) (c : LRUCache K V) (k : K) (default : V) :
    V × LRUCache K V :=
  match c.getItem eq k with
  | none => (default, c)
  | some r => r

/-- The value currently bound to a key, without the recency side effect
(specification helper, not a source method). -/
def LRUCache.lookup (eq : K → K → Bool) (c : LRUCache K V) (k : K) : Option V :=
  (c.cache.find? (fun p => eq p.1 k)).map (fun p => p.2)

/-- A document as returned by `Table.all`: its integer id plus its field
mapping (`Document` in table.py stores the mapping and a `doc_id`). -/
structure Document where
  doc_id : Nat
  fields : Value
deriving Repr

/-- A table snapshot: the persisted mapping from doc id to raw field mapping,
in insertion order.  (Python keys them by string form in storage; the id
arithmetic uses their integer form, which is what is modelled.) -/
def Snapshot := List (Nat × Value)

/-- `table[doc_id] = doc` / `table.update({doc_id: doc})` on a Python dict:
replace in place if the key exists, else append. -/
def dictSet (t : List (Nat × Value)) (k : Nat) (v : Value) : List (Nat × Value) :=
  if t.any (fun p => p.1 == k) then
    t.map (fun p => if p.1 == k then (k, v) else p)
  else
    t ++ [(k, v)]

/-- The state of one `Table` instance: the storage collaborator's current
contents (`None` meaning "no data yet"), the LRU query cache keyed by the
conds' hash tuples (a `QueryInstance` key is represented by its `_hash`,
which is all that `__hash__`/`__eq__` consult), and the lazily-materialized
next-id counter. -/
structure TableState where
  storage : Option Snapshot
  qcache : LRUCache (Option HashVal) (List Document)
  nextId : Option Nat

/-- A fresh `Table` over empty storage with the given query-cache
capacity. -/
def TableState.fresh (cap : Nat) : TableState :=
  { storage := none, qcache := { capacity := cap, cache := [] }, nextId := none }

/-- Modelled from the spec: `Table._read_table` (body missing from table.py)
returns the raw current snapshot, an absent storage result treated as
empty. -/
def readTable (s : TableState) : Snapshot := s.storage.getD []

/-- Modelled from the spec: `Table._update_table` (body missing from
table.py) always performs read, mutate via the updater, and an unconditional
write-back. -/
def updateTable (f : Snapshot → Snapshot) (s : TableState) : TableState :=
  { s with storage := some (f (readTable s)) }

/-- Modelled from the spec: `Table.clear_cache` (body missing from table.py)
empties the LRU query cache only — no I/O, capacity preserved. -/
def clearCache (s : TableState) : TableState :=
  { s with qcache := { s.qcache with cache := [] } }

/-- Modelled from the spec: `Table._get_next_id` (body missing from table.py)
returns a table-scoped fresh id: computed as `1 + max(existing ids)` (`1` on
an empty table) when the counter is unset, then cached and incremented
locally on each call. -/
def getNextId (s : TableState) : Nat × TableState :=
  match s.nextId with
  | some n => (n, { s with nextId := some (n + 1) })
  | none =>
    let ids := (readTable s).map (fun p => p.1)
    let n := 1 + ids.foldr max 0
    (n, { s with nextId := some (n + 1) })

namespace Table

/-- `Table.all`: every document of the current snapshot wrapped with its id,
in snapshot order; bypasses the query cache. -/
def all (s : TableState) : List Document :=
  (readTable s).map (fun p => { doc_id := p.1, fields := p.2 })

/-- `Table.insert`: assign a fresh id, merge into the snapshot
(`table.update({doc_id: document})`), write back, clear the cache, return
the id. -/
def insert (document : Value) (s : TableState) : Nat × TableState :=
  let r := getNextId s
  let s2 := updateTable (fun t => dictSet t r.1 document) r.2
  (r.1, clearCache s2)

/-- The updater loop of `Table.insert_multiple`: assign ids and store the
documents one by one into the borrowed snapshot (`tab`), threading the
counter state. -/
def insertMultipleAux : List Value → Snapshot → TableState →
    Snapshot × List Nat × TableState
  | [], tab, st => (tab, [], st)
  | d :: ds, tab, st =>
    let r := getNextId st
    let rest := insertMultipleAux ds (dictSet tab r.1 d) r.2
    (rest.1, r.1 :: rest.2.1, rest.2.2)

/-- `Table.insert_multiple`: one read-modify-write cycle assigning ids
sequentially, then clear the cache and return the ids. -/
def insertMultiple (documents : List Value) (s : TableState) : List Nat × TableState :=
  let r := insertMultipleAux documents (readTable s) s
  (r.2.1, clearCache { r.2.2 with storage := some r.1 })

/-- `Table.search` (table.py lines 135-147, translated as written): a cache
hit by the cond's hash returns the cached list, repositioning it as most
recent; a miss filters `all()` by the cond, stores the result in the cache —
unconditionally, with no cacheability check — and returns it. -/
def search (cond : QueryInstance) (s : TableState) : List Document × TableState :=
  if s.qcache.containsKey optHashEq cond.optHash then
    match s.qcache.getItem optHashEq cond.optHash with
    | some r => (r.1, { s with qcache := r.2 })
    | none => ([], s)
  else
    let docs := (all s).filter (fun d => cond.test d.fields)
    (docs, { s with qcache := s.qcache.set optHashEq cond.optHash docs })

end Table

/-- `doc[k] = v` on a field mapping: replace in place if the key exists, else
append. -/
def fieldSet (fs : List (String × Value)) (k : String) (v : Value) :
    List (String × Value) :=
  if fs.any (fun p => p.1 == k) then
    fs.map (fun p => if p.1 == k then (k, v) else p)
  else
    fs ++ [(k, v)]

/-- `doc.update(fields)`: merge the given fields into the document mapping
(stored documents are mappings; other values pass through unchanged, the
modelled domain never updates them). -/
def Value.updateFields (doc : Value) (fields : List (String × Value)) : Value :=
  match doc with
  | .dict fs => .dict (fields.foldl (fun acc p => fieldSet acc p.1 p.2) fs)
  | other => other

/-- The `fields` argument of `Table.update`: either a field mapping to merge,
or a callable mutating the document (modelled functionally). -/
inductive UpdateOp where
  | fieldsU (fields : List (String × Value))
  | callU (f : Value → Value)

/-- `if callable(fields): fields(doc) else: doc.update(fields)`. -/
def applyUpdate : UpdateOp → Value → Value
  | .fieldsU fields, doc => doc.updateFields fields
  | .callU f, doc => f doc

/-- The matching rule of `Table.update` (line 218) and, per the spec, of
`Table.remove`: a stored document matches when (`doc_ids` absent or its id is
listed) and (`cond` absent or `cond` holds on it). -/
def matchRule (cond : Option QueryInstance) (docIds : Option (List Nat))
    (docId : Nat) (doc : Value) : Bool :=
  (match docIds with
   | none => true
   | some l => l.contains docId) &&
  (match cond with
   | none => true
   | some c => c.test doc)

/-- The updater loop of `Table.update`: walk the snapshot in order, mutate
each matching document in place and collect its id. -/
def updaterLoop (fields : UpdateOp) (cond : Option QueryInstance)
    (docIds : Option (List Nat)) : Snapshot → Snapshot × List Nat
  | [] => ([], [])
  | (i, doc) :: rest =>
    let r := updaterLoop fields cond docIds rest
    if matchRule cond docIds i doc then
      ((i, applyUpdate fields doc) :: r.1, i :: r.2)
    else
      ((i, doc) :: r.1, r.2)

namespace Table

/-- `Table.update`: one read-modify-write pass over the snapshot, then clear
the cache and return the matched ids. -/
def update (fields : UpdateOp) (cond : Option QueryInstance)
    (docIds : Option (List Nat)) (s : TableState) : List Nat × TableState :=
  let r := updaterLoop fields cond docIds (readTable s)
  (r.2, clearCache { s with storage := some r.1 })

/-- Modelled from the spec: `Table.update_multiple` (body missing from
table.py) applies each (update, cond) pair in list order within one
read-modify-write pass, later pairs observing earlier mutations, and
accumulates the matched ids of all pairs. -/
def updateMultipleLoop : List (UpdateOp × QueryInstance) → Snapshot →
    Snapshot × List Nat
  | [], tab => (tab, [])
  | (u, c) :: rest, tab =>
    let r1 := updaterLoop u (some c) none tab
    let r2 := updateMultipleLoop rest r1.1
    (r2.1, r1.2 ++ r2.2)

/-- Modelled from the spec: `Table.update_multiple`, one cycle over all
pairs, then clear the cache. -/
def updateMultiple (updates : List (UpdateOp × QueryInstance)) (s : TableState) :
    List Nat × TableState :=
  let r := updateMultipleLoop updates (readTable s)
  (r.2, clearCache { s with storage := some r.1 })

/-- Modelled from the spec: `Table.remove` (body missing from table.py) uses
the same matching rule as `update`, deletes the matches, writes back, clears
the cache and returns the removed ids. -/
def remove (cond : Option QueryInstance) (docIds : Option (List Nat))
    (s : TableState) : List Nat × TableState :=
  let tab := readTable s
  let removed := (tab.filter (fun p => matchRule cond docIds p.1 p.2)).map (fun p => p.1)
  let tab2 := tab.filter (fun p => !matchRule cond docIds p.1 p.2)
  (removed, clearCache { s with storage := some tab2 })

/-- Modelled from the spec: `Table.upsert` (body missing from table.py)
attempts an `update` with the document's fields; when zero documents
matched, falls back to `insert`, returning the affected ids. -/
def upsert (document : Value) (cond : Option QueryInstance) (s : TableState) :
    List Nat × TableState :=
  let fields := match document with
    | .dict fs => fs
    | _ => []
  let r := update (.fieldsU fields) cond none s
  if r.1.isEmpty then
    let r2 := insert document r.2
    ([r2.1], r2.2)
  else r

/-- Modelled from the spec: `Table.truncate` (body missing from table.py)
replaces the snapshot with an empty one, resets the next-id counter to its
initial unset state, and clears the cache. -/
def truncate (s : TableState) : TableState :=
  clearCache { s with storage := some [], nextId := none }

end Table

/-- `CachingMiddleware` from middlewares.py, decorating a wrapped storage:
`writeCacheSize` is `WRITE_CACHE_SIZE`, `cache`/`cacheModifiedCount` the
buffer and pending-write counter; the wrapped storage is modelled by its
current contents (`stored`), the log of `write` calls it has received
(`writes`), and whether it was closed. -/
structure CachingMiddleware (D : Type) where
  writeCacheSize : Nat
  cache : Option D
  cacheModifiedCount : Nat
  stored : Option D
  writes : List D
  closed : Bool

/-- A freshly constructed middleware over a fresh wrapped storage. -/
def CachingMiddleware.fresh (threshold : Nat) : CachingMiddleware D :=
  { writeCacheSize := threshold, cache := none, cacheModifiedCount := 0,
    stored := none, writes := [], closed := false }

/-- `CachingMiddleware.flush`: when a buffer has been established, write it
to the wrapped storage and reset the counter; otherwise do nothing.  (The
source guards on `self.cache is not None`, not on the pending count.) -/
def CachingMiddleware.flush (s : CachingMiddleware D) : CachingMiddleware D :=
  match s.cache with
  | some d => { s with writes := s.writes ++ [d], stored := some d, cacheModifiedCount := 0 }
  | none => s

/-- `CachingMiddleware.write`: replace the buffer, increment the counter, and
flush once the counter reaches `WRITE_CACHE_SIZE`. -/
def CachingMiddleware.write (d : D) (s : CachingMiddleware D) : CachingMiddleware D :=
  let s1 := { s with cache := some d, cacheModifiedCount := s.cacheModifiedCount + 1 }
  if s1.cacheModifiedCount ≥ s1.writeCacheSize then s1.flush else s1

/-- `CachingMiddleware.read`: serve the buffer if established, else delegate
to the wrapped storage once and cache the result. -/
def CachingMiddleware.read (s : CachingMiddleware D) : Option D × CachingMiddleware D :=
  match s.cache with
  | none => (s.stored, { s with cache := s.stored })
  | some d => (some d, s)

/-- `CachingMiddleware.close`: flush, then close the wrapped storage. -/
def CachingMiddleware.close (s : CachingMiddleware D) : CachingMiddleware D :=
  let s1 := s.flush
  { s1 with closed := true }

/-- One public operation in the lifetime of a `Table` instance, for reasoning
about document-id assignment.  `truncate` is deliberately absent: per spec
§4.3 it resets the next-id counter to its initial state, so id non-reuse is
scoped to lifetimes without `truncate`; deletion happens through `rem`. -/
inductive TOp where
  | ins (d : Value)
  | insM (ds : List Value)
  | upd (u : UpdateOp) (c : Option QueryInstance) (ids : Option (List Nat))
  | rem (c : Option QueryInstance) (ids : Option (List Nat))
  | srch (c : QueryInstance)

/-- Run one operation, returning the document ids issued by `_get_next_id`
during it (inserts return exactly the ids they were issued; update, remove
and search issue none). -/
def TOp.step : TOp → TableState → List Nat × TableState
  | .ins d, s =>
    let r := Table.insert d s
    ([r.1], r.2)
  | .insM ds, s => Table.insertMultiple ds s
  | .upd u c ids, s => ([], (Table.update u c ids s).2)
  | .rem c ids, s => ([], (Table.remove c ids s).2)
  | .srch c, s => ([], (Table.search c s).2)

/-- Run a sequence of table operations, concatenating the issued ids in
order. -/
def runOps : List TOp → TableState → List Nat × TableState
  | [], s => ([], s)
  | op :: ops, s =>
    let r := op.step s
    let r2 := runOps ops r.2
    (r.1 ++ r2.1, r2.2)

/-- The ids present in the current snapshot (specification helper). -/
def storIds (s : TableState) : List Nat := (readTable s).map (fun p => p.1)

/-- The id the next `_get_next_id` call would return (specification helper):
the cached counter, or `1 + max(existing ids)` when unset. -/
def nextVal (s : TableState) : Nat :=
  match s.nextId with
  | some n => n
  | none => 1 + (storIds s).foldr max 0

/-- The id-assignment invariant of a live table: every stored id is below the
next id to be issued, and before the first issue of a fresh table the
snapshot is empty. -/
def IdInv (s : TableState) : Prop :=
  (∀ i ∈ storIds s, i < nextVal s) ∧ (s.nextId = none → storIds s = [])

/-- One path-building call on a `Query`: attribute/item access or `map`. -/
inductive PathCall where
  | attrC (s : String)
  | mapC (fid : Nat) (f : Value → Except PyErr Value)

/-- Build a `Query` through a sequence of path-building calls starting from
`Query()`. -/
def buildQuery (calls : List PathCall) : Query :=
  calls.foldl (fun q c =>
    match c with
    | .attrC s => q.attr s
    | .mapC fid f => q.mapStep fid f) ⟨[]⟩

mutual

theorem Value.beq_refl : ∀ v : Value, Value.beq v v = true
  | .null => rfl
  | .int n => by simp [Value.beq]
  | .str s => by simp [Value.beq]
  | .list xs => by simpa [Value.beq] using Value.beqList_refl xs
  | .dict fs => by simpa [Value.beq] using Value.beqFields_refl fs

theorem Value.beqList_refl : ∀ xs : List Value, Value.beqList xs xs = true
  | [] => rfl
  | v :: vs => by simp [Value.beqList, Value.beq_refl v, Value.beqList_refl vs]

theorem Value.beqFields_refl : ∀ fs : List (String × Value), Value.beqFields fs fs = true
  | [] => rfl
  | (k, w) :: ps => by simp [Value.beqFields, Value.beq_refl w, Value.beqFields_refl ps]

end

theorem hvalEq_refl : ∀ h : HashVal, hvalEq h h = true
  | .root => rfl
  | .path p => by simp [hvalEq]
  | .cmp o p r => by simp [hvalEq, Value.beq_refl r]
  | .existsH p => by simp [hvalEq]
  | .regexH o p pat fl => by simp [hvalEq]
  | .testH p fid args => by simp [hvalEq, Value.beqList_refl args]
  | .anyAllQ o p none => by simp [hvalEq]
  | .anyAllQ o p (some x) => by simp [hvalEq, hvalEq_refl x]
  | .anyAllL o p its => by simp [hvalEq, Value.beqList_refl its]
  | .oneOfH p its => by simp [hvalEq, Value.beqList_refl its]
  | .noopH => rfl
  | .andH a b => by simp [hvalEq, hvalEq_refl a, hvalEq_refl b]
  | .orH a b => by simp [hvalEq, hvalEq_refl a, hvalEq_refl b]
  | .notH a => by simp [hvalEq, hvalEq_refl a]

theorem optHashEq_refl : ∀ h : Option HashVal, optHashEq h h = true
  | none => rfl
  | some x => by simp [optHashEq, hvalEq_refl x]

/-- C10: for every pair of `QueryInstance` values whose hash tuples are both
`None` (non-cacheable), `__eq__` returns `True` and their hashes coincide,
whatever their test functions — so two behaviourally different non-cacheable
queries are indistinguishable as mapping keys. -/
theorem c10_hash_none_instances_indistinguishable :
    ∀ f g : Value → Bool,
      QueryInstance.pyEq ⟨f, none⟩ ⟨g, none⟩ = true ∧
      (QueryInstance.mk f none).optHash = (QueryInstance.mk g none).optHash := by
  intro f g
  exact ⟨rfl, rfl⟩

/-- C4: two queries built through an identical sequence of path-extension,
operator and operand calls hash equal, and for cacheable instances `A & B`
hashes equal to `B & A` (likewise `A | B` and `B | A`), because the
combinator hash holds a `frozenset` of the operand hashes. -/
theorem c4_structural_hash_equality
    (calls1 calls2 : List PathCall) (op1 op2 : TermOp) (a1 a2 : QueryInstance)
    (A B : QueryInstance)
    (hc : calls1 = calls2) (ho : op1 = op2)
    (h1 : applyOp (buildQuery calls1) op1 = .ok a1)
    (h2 : applyOp (buildQuery calls2) op2 = .ok a2)
    (hA : A.isCacheable = true) (hB : B.isCacheable = true) :
    optHashEq a1.optHash a2.optHash = true ∧
    optHashEq (QueryInstance.and A B).optHash (QueryInstance.and B A).optHash = true ∧
    optHashEq (QueryInstance.or A B).optHash (QueryInstance.or B A).optHash = true := by
  subst hc
  subst ho
  rw [h1] at h2
  obtain rfl : a1 = a2 := by
    cases h2
    rfl
  obtain ⟨x, hx⟩ := Option.isSome_iff_exists.mp hA
  obtain ⟨y, hy⟩ := Option.isSome_iff_exists.mp hB
  refine ⟨optHashEq_refl _, ?_, ?_⟩
  · simp [QueryInstance.and, QueryInstance.isCacheable, hx, hy, optHashEq, hvalEq,
      hvalEq_refl x, hvalEq_refl y]
  · simp [QueryInstance.or, QueryInstance.isCacheable, hx, hy, optHashEq, hvalEq,
      hvalEq_refl x, hvalEq_refl y]

theorem c4_witness :
    optHashEq
      (QueryInstance.mk (runner [.field "f"] (.eqOp (.int 42)))
        (some (.cmp "==" [.field "f"] (.int 42)))).optHash
      (QueryInstance.mk (runner [.field "f"] (.eqOp (.int 42)))
        (some (.cmp "==" [.field "f"] (.int 42)))).optHash = true ∧
    optHashEq
      (QueryInstance.and ⟨fun _ => true, some .noopH⟩ ⟨fun _ => false, some .root⟩).optHash
      (QueryInstance.and ⟨fun _ => false, some .root⟩ ⟨fun _ => true, some .noopH⟩).optHash = true ∧
    optHashEq
      (QueryInstance.or ⟨fun _ => true, some .noopH⟩ ⟨fun _ => false, some .root⟩).optHash
      (QueryInstance.or ⟨fun _ => false, some .root⟩ ⟨fun _ => true, some .noopH⟩).optHash = true :=
  c4_structural_hash_equality [.attrC "f"] [.attrC "f"] (.eqOp (.int 42)) (.eqOp (.int 42))
    ⟨runner [.field "f"] (.eqOp (.int 42)), some (.cmp "==" [.field "f"] (.int 42))⟩
    ⟨runner [.field "f"] (.eqOp (.int 42)), some (.cmp "==" [.field "f"] (.int 42))⟩
    ⟨fun _ => true, some .noopH⟩ ⟨fun _ => false, some .root⟩
    rfl rfl rfl rfl rfl rfl

/-- C6: applying any terminal operation other than `noop` to a `Query` with
an empty path raises `RuntimeError('Query has no path')` at construction
time, and `noop` is the only terminal operation permitted on an empty
path. -/
theorem c6_empty_path_is_usage_error (op : TermOp) (h : op ≠ .noopOp) :
    applyOp ⟨[]⟩ op = .error "Query has no path" ∧
    applyOp ⟨[]⟩ .noopOp =
      .ok { test := runner [] .noopOp, optHash := some .noopH } := by
  constructor
  · cases op <;> simp [applyOp, TermOp.allowEmptyPath] at h ⊢
  · rfl

theorem c6_witness :
    applyOp ⟨[]⟩ .existsOp = .error "Query has no path" ∧
    applyOp ⟨[]⟩ .noopOp =
      .ok { test := runner [] .noopOp, optHash := some .noopH } :=
  c6_empty_path_is_usage_error .existsOp (fun h => nomatch h)

/-- C8 counterexample: with flush threshold 2 over a fresh wrapped storage,
already the second `write` call invokes the wrapped storage's `write` (the
counter reaches the threshold at the second write), so the claim that "the
first two write calls do not invoke the wrapped storage's write" is false:
after two writes the wrapped write log is `[20]`, not empty. -/
theorem c8_threshold_two_counterexample :
    (CachingMiddleware.write 20 (CachingMiddleware.write 10
      (@CachingMiddleware.fresh Nat 2))).writes = [20] ∧
    (CachingMiddleware.write 20 (CachingMiddleware.write 10
      (@CachingMiddleware.fresh Nat 2))).writes.length = 1 := by
  exact ⟨rfl, rfl⟩

/-- C8 amended: for a `CachingMiddleware` with flush threshold 2 over a fresh
wrapped storage, the first write does not invoke the wrapped storage's write;
the second write triggers exactly one flush carrying the most recently
buffered value and resets the pending counter; and `close()` before any
write has established the buffer performs a no-op flush (no write to the
wrapped storage) before closing it. -/
theorem c8_threshold_two_flush {D : Type} (d1 d2 : D) :
    (CachingMiddleware.write d1 (@CachingMiddleware.fresh D 2)).writes = [] ∧
    (CachingMiddleware.write d2 (CachingMiddleware.write d1
      (@CachingMiddleware.fresh D 2))).writes = [d2] ∧
    (CachingMiddleware.write d2 (CachingMiddleware.write d1
      (@CachingMiddleware.fresh D 2))).cacheModifiedCount = 0 ∧
    (CachingMiddleware.close (@CachingMiddleware.fresh D 2)).writes = [] ∧
    (CachingMiddleware.close (@CachingMiddleware.fresh D 2)).closed = true := by
  refine ⟨rfl, ?_, ?_, rfl, rfl⟩ <;>
    simp [CachingMiddleware.write, CachingMiddleware.flush, CachingMiddleware.fresh]

/-- C3 failing evaluation: `Table.search` stores a hash-`None`
(non-cacheable) cond in the query cache.  After one search with such a cond
on a fresh table, the cond sits in the cache as a key (and so any later
hash-`None` cond hits it), contradicting "never inserted as a cache key,
always a miss". -/
theorem c3_noncacheable_cond_is_cached :
    ((Table.search ⟨fun _ => true, none⟩ (TableState.fresh 10)).2.qcache.cache.map
      Prod.fst) = [none] ∧
    (Table.search ⟨fun _ => true, none⟩
      (TableState.fresh 10)).2.qcache.containsKey optHashEq none = true := by
  exact ⟨rfl, rfl⟩

/-- C1 failing evaluation: searching with a hash-`None` cond caches its
result under the `None` key, and a second, behaviourally different
hash-`None` cond then hits that entry: on the table `{1: {'x': 1}}`, after
`search(lambda d: True hash None)`, a search with the never-matching
hash-`None` cond returns the cached `[{'x': 1}]` although filtering `all()`
with it yields `[]` — so `search(cond)` is not the filter of `all()` by
`cond` for every cond and table state. -/
theorem c1_search_differs_from_filter :
    (Table.search ⟨fun _ => false, none⟩
      ((Table.search ⟨fun _ => true, none⟩
        ((Table.insert (.dict [("x", .int 1)]) (TableState.fresh 10)).2)).2)).1 =
      [{ doc_id := 1, fields := .dict [("x", .int 1)] }] ∧
    ((Table.all ((Table.search ⟨fun _ => true, none⟩
        ((Table.insert (.dict [("x", .int 1)]) (TableState.fresh 10)).2)).2)).filter
      (fun d => (QueryInstance.mk (fun _ => false) none).test d.fields)) = [] := by
  exact ⟨rfl, rfl⟩

/-- C2: every mutating table operation — insert, insert_multiple, update,
update_multiple, remove, upsert, truncate — leaves the table's query cache
empty when it returns (no partial invalidation), and a search on a table
whose cache is empty always misses and re-reads storage: it returns exactly
`all()` filtered by the cond. -/
theorem c2_mutations_clear_query_cache
    (s : TableState) (d : Value) (ds : List Value) (u : UpdateOp)
    (c : Option QueryInstance) (ids : Option (List Nat))
    (us : List (UpdateOp × QueryInstance)) :
    (Table.insert d s).2.qcache.cache = [] ∧
    (Table.insertMultiple ds s).2.qcache.cache = [] ∧
    (Table.update u c ids s).2.qcache.cache = [] ∧
    (Table.updateMultiple us s).2.qcache.cache = [] ∧
    (Table.remove c ids s).2.qcache.cache = [] ∧
    (Table.upsert d c s).2.qcache.cache = [] ∧
    (Table.truncate s).qcache.cache = [] ∧
    (∀ (s1 : TableState) (cond : QueryInstance), s1.qcache.cache = [] →
      (Table.search cond s1).1 =
        (Table.all s1).filter (fun doc => cond.test doc.fields)) := by
  refine ⟨rfl, rfl, rfl, rfl, rfl, ?_, rfl, ?_⟩
  · unfold Table.upsert
    split <;> dsimp only <;> split <;> rfl
  · intro s1 cond h
    unfold Table.search
    rw [if_neg]
    simp [LRUCache.containsKey, h]

theorem c2_witness :
    (Table.search ⟨fun _ => true, some .noopH⟩ (TableState.fresh 3)).1 =
      (Table.all (TableState.fresh 3)).filter
        (fun doc => (QueryInstance.mk (fun _ => true) (some .noopH)).test doc.fields) :=
  (c2_mutations_clear_query_cache (TableState.fresh 3) .null [] (.fieldsU [])
    none none []).2.2.2.2.2.2.2 (TableState.fresh 3) ⟨fun _ => true, some .noopH⟩ rfl

theorem navigate_append (p1 p2 : List PStep) (v : Value) :
    navigate (p1 ++ p2) v =
      match navigate p1 v with
      | .ok w => navigate p2 w
      | .error e => .error e := by
  induction p1 generalizing v with
  | nil => simp [navigate]
  | cons step rest ih =>
    simp only [List.cons_append, navigate]
    cases step.apply v with
    | ok w => exact ih w
    | error e => rfl

/-- C5: for every document and every supported query built from a path and a
terminal operation, evaluation is a total boolean function (the `runner`
never raises): a navigation failure at any point of the path, or a failing
terminal test (type mismatch, comparison error), makes the predicate return
`False` for that document, and otherwise the predicate returns exactly the
terminal test's value. -/
theorem c5_evaluation_total_and_failure_is_false
    (p1 p2 : List PStep) (op : TermOp) (q : QueryInstance) (doc : Value) (e : PyErr)
    (hok : applyOp ⟨p1 ++ p2⟩ op = .ok q) :
    (navigate p1 doc = .error e → q.test doc = false) ∧
    (∀ v, navigate (p1 ++ p2) doc = .ok v → termTest op v = .error e →
      q.test doc = false) ∧
    (∀ v b, navigate (p1 ++ p2) doc = .ok v → termTest op v = .ok b →
      q.test doc = b) := by
  have hq : q.test = runner (p1 ++ p2) op := by
    unfold applyOp at hok
    split at hok
    · cases hok
    · cases hok
      rfl
  refine ⟨?_, ?_, ?_⟩
  · intro hnav
    simp [hq, runner, navigate_append, hnav]
  · intro v hnav ht
    simp [hq, runner, hnav, ht]
  · intro v b hnav ht
    simp [hq, runner, hnav, ht]

theorem c5_witness :
    (QueryInstance.mk (runner [.field "a"] (.eqOp (.int 1)))
      (some (.cmp "==" [.field "a"] (.int 1)))).test (.int 5) = false :=
  (c5_evaluation_total_and_failure_is_false [.field "a"] [] (.eqOp (.int 1))
    ⟨runner [.field "a"] (.eqOp (.int 1)), some (.cmp "==" [.field "a"] (.int 1))⟩
    (.int 5) .typeError rfl).1 rfl

theorem odDelete_any_ne {K V : Type} [DecidableEq K] (l : List (K × V)) (k x : K)
    (hne : x ≠ k) :
    (odDelete (fun a b => a == b) l k).any (fun p => p.1 == x) =
      l.any (fun p => p.1 == x) := by
  induction l with
  | nil => rfl
  | cons hd tl ih =>
    unfold odDelete at ih ⊢
    rw [List.filter_cons]
    by_cases hh : hd.1 = k
    · have hx : (hd.1 == x) = false := by
        subst hh
        exact beq_eq_false_iff_ne.mpr (fun e => hne e.symm)
      rw [if_neg (by simp [hh]), List.any_cons, hx, Bool.false_or]
      exact ih
    · rw [if_pos (by simp [hh]), List.any_cons, List.any_cons, ih]

theorem odDelete_eq_of_not_mem {K V : Type} [DecidableEq K] (l : List (K × V)) (k : K)
    (h : k ∉ l.map Prod.fst) : odDelete (fun a b => a == b) l k = l := by
  unfold odDelete
  apply List.filter_eq_self.mpr
  intro p hp
  have hne : p.1 ≠ k := fun e => h (e ▸ List.mem_map_of_mem Prod.fst hp)
  simp [hne]

theorem odDelete_length {K V : Type} [DecidableEq K] (l : List (K × V)) (k : K)
    (hnd : (l.map Prod.fst).Nodup) (hmem : l.any (fun p => p.1 == k) = true) :
    (odDelete (fun a b => a == b) l k).length + 1 = l.length := by
  induction l with
  | nil => simp at hmem
  | cons hd tl ih =>
    simp only [List.map_cons, List.nodup_cons] at hnd
    simp only [odDelete] at ih ⊢
    rw [List.filter_cons]
    by_cases hh : hd.1 = k
    · have hnin : k ∉ tl.map Prod.fst := hh ▸ hnd.1
      have heq := odDelete_eq_of_not_mem tl k hnin
      simp only [odDelete] at heq
      simp [hh, heq]
    · have hmem1 : tl.any (fun p => p.1 == k) = true := by
        rcases List.any_eq_true.mp hmem with ⟨p, hp, hpk⟩
        rcases List.mem_cons.mp hp with h1 | h1
        · exact absurd (beq_iff_eq.mp (h1 ▸ hpk)) hh
        · exact List.any_eq_true.mpr ⟨p, h1, hpk⟩
      rw [if_pos (by simp [hh])]
      have hlen := ih hnd.2 hmem1
      simp only [List.length_cons]
      omega

theorem odDelete_find?_none {K V : Type} [DecidableEq K] (l : List (K × V)) (k : K) :
    (odDelete (fun a b => a == b) l k).find? (fun p => p.1 == k) = none := by
  apply List.find?_eq_none.mpr
  intro p hp
  have := List.of_mem_filter hp
  simpa using this

/-- C9: for an LRU cache of capacity 2, the sequence `set(a,1)`, `set(b,2)`,
`get(a)`, `set(c,3)` (keys `a,b,c` modelled as `0,1,2`) evicts exactly key
`b`, leaving the cache holding exactly `a` and `c` (with `get(a)` returning
`1`); in general, `set` on an existing key overwrites without eviction
(length preserved, key bound to the new value, key set grown by at most the
new key), and `set` on a new key at capacity first evicts the
least-recently-used entry (the front) and then appends. -/
theorem c9_lru_recency_and_eviction
    {K V : Type} [DecidableEq K]
    (c1 : LRUCache K V) (k1 : K) (v1 : V) (c2 : LRUCache K V) (k2 : K) (v2 : V)
    (h1n : (c1.cache.map Prod.fst).Nodup)
    (h1m : c1.containsKey (fun a b => a == b) k1 = true)
    (h2m : c2.containsKey (fun a b => a == b) k2 = false)
    (h2c : c2.cache.length ≥ c2.capacity) :
    (LRUCache.set (fun a b : Nat => a == b)
        (LRUCache.getD (fun a b : Nat => a == b)
          (LRUCache.set (fun a b : Nat => a == b)
            (LRUCache.set (fun a b : Nat => a == b)
              (⟨2, []⟩ : LRUCache Nat Nat) 0 1) 1 2) 0 0).2 2 3).cache
      = [(0, 1), (2, 3)] ∧
    (LRUCache.getD (fun a b : Nat => a == b)
        (LRUCache.set (fun a b : Nat => a == b)
          (LRUCache.set (fun a b : Nat => a == b)
            (⟨2, []⟩ : LRUCache Nat Nat) 0 1) 1 2) 0 0).1 = 1 ∧
    (c1.set (fun a b => a == b) k1 v1).cache.length = c1.cache.length ∧
    (c1.set (fun a b => a == b) k1 v1).lookup (fun a b => a == b) k1 = some v1 ∧
    (∀ x : K, (c1.set (fun a b => a == b) k1 v1).containsKey (fun a b => a == b) x
      = (c1.containsKey (fun a b => a == b) x || (k1 == x))) ∧
    (c2.set (fun a b => a == b) k2 v2).cache = c2.cache.drop 1 ++ [(k2, v2)] := by
  have h1any : c1.cache.any (fun p => p.1 == k1) = true := h1m
  refine ⟨by decide, by decide, ?_, ?_, ?_, ?_⟩
  · simp only [LRUCache.set, h1m, if_true]
    rw [List.length_append]
    have := odDelete_length c1.cache k1 h1n h1any
    simp only [List.length_cons, List.length_nil]
    omega
  · simp only [LRUCache.set, h1m, if_true, LRUCache.lookup]
    rw [List.find?_append, odDelete_find?_none]
    simp [List.find?]
  · intro x
    by_cases hx : x = k1
    · subst hx
      simp [LRUCache.set, LRUCache.containsKey, h1any, List.any_append]
    · have hk : (k1 == x) = false := beq_eq_false_iff_ne.mpr (fun e => hx e.symm)
      have hod := odDelete_any_ne c1.cache k1 x hx
      simp [LRUCache.set, LRUCache.containsKey, h1any, List.any_append, hk, hod]
  · simp only [LRUCache.set, h2m, Bool.false_eq_true, if_false, if_pos h2c]

theorem c9_witness :
    (LRUCache.set (fun a b : Nat => a == b)
        (LRUCache.getD (fun a b : Nat => a == b)
          (LRUCache.set (fun a b : Nat => a == b)
            (LRUCache.set (fun a b : Nat => a == b)
              (⟨2, []⟩ : LRUCache Nat Nat) 0 1) 1 2) 0 0).2 2 3).cache
      = [(0, 1), (2, 3)] ∧
    (LRUCache.getD (fun a b : Nat => a == b)
        (LRUCache.set (fun a b : Nat => a == b)
          (LRUCache.set (fun a b : Nat => a == b)
            (⟨2, []⟩ : LRUCache Nat Nat) 0 1) 1 2) 0 0).1 = 1 ∧
    (LRUCache.set (fun a b : Nat => a == b)
      (⟨2, [(5, 100), (6, 200)]⟩ : LRUCache Nat Nat) 5 300).cache.length =
      (⟨2, [(5, 100), (6, 200)]⟩ : LRUCache Nat Nat).cache.length ∧
    (LRUCache.lookup (fun a b : Nat => a == b)
      (LRUCache.set (fun a b : Nat => a == b)
        (⟨2, [(5, 100), (6, 200)]⟩ : LRUCache Nat Nat) 5 300) 5) = some 300 ∧
    (∀ x : Nat, (LRUCache.set (fun a b : Nat => a == b)
        (⟨2, [(5, 100), (6, 200)]⟩ : LRUCache Nat Nat) 5 300).containsKey
          (fun a b => a == b) x
      = ((⟨2, [(5, 100), (6, 200)]⟩ : LRUCache Nat Nat).containsKey
          (fun a b => a == b) x || (5 == x))) ∧
    (LRUCache.set (fun a b : Nat => a == b)
      (⟨2, [(7, 1), (8, 2)]⟩ : LRUCache Nat Nat) 9 3).cache =
      (⟨2, [(7, 1), (8, 2)]⟩ : LRUCache Nat Nat).cache.drop 1 ++ [(9, 3)] :=
  c9_lru_recency_and_eviction
    (⟨2, [(5, 100), (6, 200)]⟩ : LRUCache Nat Nat) 5 300
    (⟨2, [(7, 1), (8, 2)]⟩ : LRUCache Nat Nat) 9 3
    (by decide) (by decide) (by decide) (by decide)

theorem getNextId_eq (s : TableState) :
    getNextId s = (nextVal s, { s with nextId := some (nextVal s + 1) }) := by
  cases h : s.nextId <;> simp [getNextId, nextVal, storIds, h]

theorem nextVal_eq_of (s t : TableState) (hst : t.storage = s.storage)
    (hni : t.nextId = s.nextId) : nextVal t = nextVal s := by
  unfold nextVal storIds readTable
  rw [hst, hni]

theorem nextVal_of_some (s : TableState) (n : Nat) (h : s.nextId = some n) :
    nextVal s = n := by
  unfold nextVal
  rw [h]

theorem dictSet_fst_mem (t : List (Nat × Value)) (k : Nat) (v : Value) (i : Nat)
    (h : i ∈ (dictSet t k v).map Prod.fst) : i = k ∨ i ∈ t.map Prod.fst := by
  unfold dictSet at h
  split at h
  · rcases List.mem_map.mp h with ⟨p, hp, hfst⟩
    rcases List.mem_map.mp hp with ⟨q, hq, hqp⟩
    by_cases hqk : q.1 = k
    · left
      rw [← hfst, ← hqp]
      simp [hqk]
    · right
      rw [← hfst, ← hqp]
      simp only [hqk, beq_iff_eq, if_neg hqk]
      exact List.mem_map_of_mem Prod.fst hq
  · rw [List.map_append] at h
    rcases List.mem_append.mp h with h1 | h1
    · exact Or.inr h1
    · left
      simpa using h1

theorem updaterLoop_fst (u : UpdateOp) (c : Option QueryInstance)
    (ids : Option (List Nat)) (tab : Snapshot) :
    ((updaterLoop u c ids tab).1).map Prod.fst = tab.map Prod.fst := by
  induction tab with
  | nil => rfl
  | cons hd tl ih =>
    unfold updaterLoop
    cases hd with
    | mk i doc =>
      by_cases hm : matchRule c ids i doc
      · simp [hm, ih]
      · simp [hm, ih]

theorem insert_unfold (d : Value) (s : TableState) :
    Table.insert d s =
      (nextVal s,
        { storage := some (dictSet (readTable s) (nextVal s) d),
          qcache := { capacity := s.qcache.capacity, cache := [] },
          nextId := some (nextVal s + 1) }) := by
  simp [Table.insert, getNextId_eq, updateTable, clearCache, readTable]

theorem update_unfold (u : UpdateOp) (c : Option QueryInstance)
    (ids : Option (List Nat)) (s : TableState) :
    Table.update u c ids s =
      ((updaterLoop u c ids (readTable s)).2,
        { storage := some ((updaterLoop u c ids (readTable s)).1),
          qcache := { capacity := s.qcache.capacity, cache := [] },
          nextId := s.nextId }) := by
  simp [Table.update, clearCache]

theorem remove_unfold (c : Option QueryInstance) (ids : Option (List Nat))
    (s : TableState) :
    Table.remove c ids s =
      (((readTable s).filter (fun p => matchRule c ids p.1 p.2)).map (fun p => p.1),
        { storage := some ((readTable s).filter (fun p => !matchRule c ids p.1 p.2)),
          qcache := { capacity := s.qcache.capacity, cache := [] },
          nextId := s.nextId }) := by
  simp [Table.remove, clearCache]

theorem search_preserves_storage_and_nextId (c : QueryInstance) (s : TableState) :
    (Table.search c s).2.storage = s.storage ∧ (Table.search c s).2.nextId = s.nextId := by
  unfold Table.search
  split
  · split <;> exact ⟨rfl, rfl⟩
  · exact ⟨rfl, rfl⟩

theorem insertMultipleAux_spec :
    ∀ (ds : List Value) (tab : Snapshot) (st : TableState),
      (∀ i ∈ tab.map Prod.fst, i < nextVal st) →
      (Table.insertMultipleAux ds tab st).2.1 = List.range' (nextVal st) ds.length ∧
      (Table.insertMultipleAux ds tab st).2.2.storage = st.storage ∧
      nextVal (Table.insertMultipleAux ds tab st).2.2 = nextVal st + ds.length ∧
      ((Table.insertMultipleAux ds tab st).2.2.nextId = none →
        st.nextId = none ∧ ds = []) ∧
      (∀ i ∈ (Table.insertMultipleAux ds tab st).1.map Prod.fst,
        i < nextVal (Table.insertMultipleAux ds tab st).2.2) := by
  intro ds
  induction ds with
  | nil =>
    intro tab st hlt
    refine ⟨rfl, rfl, by simp [Table.insertMultipleAux], fun h => ⟨h, rfl⟩, hlt⟩
  | cons d ds ih =>
    intro tab st hlt
    have hst1 : nextVal { st with nextId := some (nextVal st + 1) } = nextVal st + 1 :=
      nextVal_of_some _ _ rfl
    have hlt1 : ∀ i ∈ (dictSet tab (nextVal st) d).map Prod.fst,
        i < nextVal { st with nextId := some (nextVal st + 1) } := by
      intro i hi
      rw [hst1]
      rcases dictSet_fst_mem tab (nextVal st) d i hi with h | h
      · omega
      · have := hlt i h
        omega
    have A := ih (dictSet tab (nextVal st) d) { st with nextId := some (nextVal st + 1) } hlt1
    have hstep : Table.insertMultipleAux (d :: ds) tab st =
        ((Table.insertMultipleAux ds (dictSet tab (nextVal st) d)
            { st with nextId := some (nextVal st + 1) }).1,
          nextVal st :: (Table.insertMultipleAux ds (dictSet tab (nextVal st) d)
            { st with nextId := some (nextVal st + 1) }).2.1,
          (Table.insertMultipleAux ds (dictSet tab (nextVal st) d)
            { st with nextId := some (nextVal st + 1) }).2.2) := by
      simp [Table.insertMultipleAux, getNextId_eq]
    rw [hstep]
    refine ⟨?_, ?_, ?_, ?_, ?_⟩
    · simp only [List.length_cons]
      rw [A.1, hst1]
      rfl
    · exact A.2.1
    · rw [A.2.2.1, hst1]
      simp only [List.length_cons]
      omega
    · intro h
      exact absurd (A.2.2.2.1 h).1 (by simp)
    · exact A.2.2.2.2

theorem insertMultiple_spec (ds : List Value) (s : TableState) (hInv : IdInv s) :
    (Table.insertMultiple ds s).1 = List.range' (nextVal s) ds.length ∧
    nextVal (Table.insertMultiple ds s).2 = nextVal s + ds.length ∧
    IdInv (Table.insertMultiple ds s).2 := by
  have hlt : ∀ i ∈ (readTable s).map Prod.fst, i < nextVal s := hInv.1
  have A := insertMultipleAux_spec ds (readTable s) s hlt
  have hval : nextVal (Table.insertMultiple ds s).2 =
      nextVal (Table.insertMultipleAux ds (readTable s) s).2.2 := by
    cases hni : (Table.insertMultipleAux ds (readTable s) s).2.2.nextId with
    | some n =>
      rw [nextVal_of_some _ _ hni]
      exact nextVal_of_some (Table.insertMultiple ds s).2 n hni
    | none =>
      obtain ⟨hs, hds⟩ := A.2.2.2.1 hni
      subst hds
      unfold nextVal
      rw [show (Table.insertMultiple ([] : List Value) s).2.nextId = none from hni, hni]
      rfl
  refine ⟨A.1, hval.trans A.2.2.1, ?_, ?_⟩
  · intro i hi
    have h5 := A.2.2.2.2 i hi
    rw [hval]
    exact h5
  · intro h
    obtain ⟨hs, hds⟩ := A.2.2.2.1 h
    subst hds
    show storIds (Table.insertMultiple ([] : List Value) s).2 = []
    have heq : storIds (Table.insertMultiple ([] : List Value) s).2 = storIds s := rfl
    rw [heq]
    exact hInv.2 hs

theorem storIds_eq_of (s t : TableState) (hst : t.storage = s.storage) :
    storIds t = storIds s := by
  unfold storIds readTable
  rw [hst]

theorem TOp.step_spec (op : TOp) (s : TableState) (hInv : IdInv s) :
    (op.step s).1 = List.range' (nextVal s) (op.step s).1.length ∧
    nextVal (op.step s).2 = nextVal s + (op.step s).1.length ∧
    IdInv (op.step s).2 := by
  cases op with
  | ins d =>
    dsimp only [TOp.step]
    have h := insert_unfold d s
    refine ⟨?_, ?_, ?_, ?_⟩
    · rw [h]
      simp [List.range'_one]
    · rw [h]
      exact nextVal_of_some _ _ rfl
    · intro i hi
      rw [h] at hi ⊢
      rw [nextVal_of_some _ _ rfl]
      rcases dictSet_fst_mem (readTable s) (nextVal s) d i hi with h1 | h1
      · omega
      · have := hInv.1 i h1
        omega
    · intro hno
      rw [h] at hno
      exact absurd hno (by simp)
  | insM ds =>
    dsimp only [TOp.step]
    have A := insertMultiple_spec ds s hInv
    have hlen : (Table.insertMultiple ds s).1.length = ds.length := by
      rw [A.1]
      exact List.length_range' _ _ _
    refine ⟨?_, ?_, A.2.2⟩
    · rw [hlen, A.1]
    · rw [hlen, A.2.1]
  | upd u c ids =>
    dsimp only [TOp.step]
    have h := update_unfold u c ids s
    have hids : storIds (Table.update u c ids s).2 = storIds s := by
      rw [h]
      exact updaterLoop_fst u c ids (readTable s)
    have hval : nextVal (Table.update u c ids s).2 = nextVal s := by
      cases hni : s.nextId with
      | some n =>
        rw [nextVal_of_some s n hni]
        refine nextVal_of_some _ n ?_
        rw [h]
        exact hni
      | none =>
        unfold nextVal
        rw [show (Table.update u c ids s).2.nextId = none from by rw [h]; exact hni,
          hni, hids]
    refine ⟨rfl, ?_, ?_, ?_⟩
    · simpa using hval
    · intro i hi
      rw [hids] at hi
      rw [hval]
      exact hInv.1 i hi
    · intro hno
      rw [hids]
      apply hInv.2
      rw [h] at hno
      exact hno
  | rem c ids =>
    dsimp only [TOp.step]
    have h := remove_unfold c ids s
    have hsub : ∀ i ∈ storIds (Table.remove c ids s).2, i ∈ storIds s := by
      intro i hi
      rw [h] at hi
      rcases List.mem_map.mp hi with ⟨p, hp, hfst⟩
      exact hfst ▸ List.mem_map_of_mem _ (List.mem_of_mem_filter hp)
    have hemp2 : s.nextId = none → storIds (Table.remove c ids s).2 = [] := by
      intro hni
      have htab : readTable s = [] := List.map_eq_nil_iff.mp (hInv.2 hni)
      rw [h]
      show ((readTable s).filter (fun p => !matchRule c ids p.1 p.2)).map
        (fun p => p.1) = []
      rw [htab]
      rfl
    have hval : nextVal (Table.remove c ids s).2 = nextVal s := by
      cases hni : s.nextId with
      | some n =>
        rw [nextVal_of_some s n hni]
        refine nextVal_of_some _ n ?_
        rw [h]
        exact hni
      | none =>
        unfold nextVal
        rw [show (Table.remove c ids s).2.nextId = none from by rw [h]; exact hni, hni,
          hemp2 hni, hInv.2 hni]
    refine ⟨rfl, ?_, ?_, ?_⟩
    · simpa using hval
    · intro i hi
      rw [hval]
      exact hInv.1 i (hsub i hi)
    · intro hno
      apply hemp2
      rw [h] at hno
      exact hno
  | srch c =>
    dsimp only [TOp.step]
    have h := search_preserves_storage_and_nextId c s
    have hids : storIds (Table.search c s).2 = storIds s := storIds_eq_of s _ h.1
    have hval : nextVal (Table.search c s).2 = nextVal s := nextVal_eq_of s _ h.1 h.2
    refine ⟨rfl, ?_, ?_, ?_⟩
    · simpa using hval
    · intro i hi
      rw [hids] at hi
      rw [hval]
      exact hInv.1 i hi
    · intro hno
      rw [hids]
      apply hInv.2
      rw [← h.2]
      exact hno

theorem runOps_spec :
    ∀ (ops : List TOp) (s : TableState), IdInv s →
      (runOps ops s).1 = List.range' (nextVal s) (runOps ops s).1.length ∧
      nextVal (runOps ops s).2 = nextVal s + (runOps ops s).1.length ∧
      IdInv (runOps ops s).2 := by
  intro ops
  induction ops with
  | nil =>
    intro s h
    exact ⟨rfl, rfl, h⟩
  | cons op ops ih =>
    intro s h
    have S := TOp.step_spec op s h
    have I := ih (op.step s).2 S.2.2
    have hrun : runOps (op :: ops) s =
        ((op.step s).1 ++ (runOps ops (op.step s).2).1, (runOps ops (op.step s).2).2) := by
      dsimp only [runOps]
    rw [hrun]
    have happ : (op.step s).1 ++ (runOps ops (op.step s).2).1 =
        List.range' (nextVal s)
          ((op.step s).1.length + (runOps ops (op.step s).2).1.length) := by
      conv_lhs => rw [S.1, I.1]
      rw [S.2.1]
      have := List.range'_append (nextVal s) (op.step s).1.length
        (runOps ops (op.step s).2).1.length 1
      simp only [Nat.one_mul] at this
      rw [this, Nat.add_comm]
    refine ⟨?_, ?_, I.2.2⟩
    · rw [happ]
      simp [List.length_append, List.length_range']
    · rw [I.2.1, S.2.1]
      simp [List.length_append]
      omega

/-- C7: on a freshly constructed `Table` over empty storage, the ids issued
across any sequence of operations in the instance's lifetime (insert,
insert_multiple, update, remove, search; `truncate` is excluded because spec
§4.3 resets the id counter) are exactly `1, 2, 3, ...` in issue order: the
first insert returns id 1, each subsequent insert returns an id strictly
larger than every id previously issued, and the id of a document deleted by
`remove` is never issued again. -/
theorem c7_ids_monotone_never_reused (cap : Nat) (ops : List TOp) :
    (runOps ops (TableState.fresh cap)).1 =
      List.range' 1 (runOps ops (TableState.fresh cap)).1.length := by
  have hInv : IdInv (TableState.fresh cap) := by
    constructor
    · intro i hi
      simp [storIds, readTable, TableState.fresh] at hi
    · intro _
      rfl
  have h := runOps_spec ops (TableState.fresh cap) hInv
  have h1 : nextVal (TableState.fresh cap) = 1 := rfl
  rw [← h1]
  exact h.1
